import Mathlib

/-!
Verification of the MDXtract core against its natural-language specification.

The Python source (src/util.py, src/common.py, src/pdx2wav.py) is shallowly
embedded below: byte buffers are `List Nat` (each element a byte value),
signed machine integers are `Int`, fallible code returns `Option`.
Python float arithmetic appearing in the decoders is exact at the magnitudes
involved (all intermediate products are below 2^22 and the divisors 8 and 64
are powers of two), so it is embedded as exact integer arithmetic with
truncation toward zero (`Int.tdiv`), which is what Python's `int()` performs.
-/

namespace MDXtract

/-! ### util.py -/

/-- util.clip_int: `int(max(min_value, min(value, max_value)))`. -/
def clip_int (value minValue maxValue : Int) : Int :=
  max minValue (min value maxValue)

/-- util.clip_int16: clamp to the signed 16-bit range. -/
def clip_int16 (value : Int) : Int :=
  max (-32768) (min value 32767)

/-- util.get_uint32 (big-endian case is the one the PDX parser uses).
Python indexes the bytearray directly and raises IndexError when out of
range; callers below guard the whole table read, so the read itself is
embedded with `List.getD`. -/
def get_uint32 (data : List Nat) (offset : Nat) (bigEndian : Bool) : Nat :=
  if bigEndian then
    (data.getD offset 0 <<< 24) + (data.getD (offset + 1) 0 <<< 16) +
      (data.getD (offset + 2) 0 <<< 8) + data.getD (offset + 3) 0
  else
    (data.getD (offset + 3) 0 <<< 24) + (data.getD (offset + 2) 0 <<< 16) +
      (data.getD (offset + 1) 0 <<< 8) + data.getD offset 0

/-- util.nibbles: `shift = [0,4] if not big_endian else [4,0]`, then for each
byte yield `(byte >> s) & 0x0F` for each `s` in `shift`. -/
def nibbles (data : List Nat) (bigEndian : Bool) : List Nat :=
  let shift := if bigEndian then [4, 0] else [0, 4]
  data.flatMap fun byte => shift.map fun s => (byte >>> s) &&& 0x0F

/-- Python's `round` (round half to even), on an exact rational. -/
def pyround (q : ℚ) : Int :=
  let f := ⌊q⌋
  let r := q - (f : ℚ)
  if r < 1 / 2 then f
  else if 1 / 2 < r then f + 1
  else if f % 2 = 0 then f else f + 1

/-- util.remap.  In Python the bounds and `n` are ints, the numerator
product is exact integer arithmetic, and only the final `/` produces a
float: the correctly rounded binary64 value of the exact quotient, to
which one more rounded addition or subtraction is applied.  This embedding
carries the exact rational instead of the double; in the program the value
is only ever observed through `int_remap` below (every call site rounds),
and theorems about the rounded result restrict their arguments to
magnitudes ≤ 32767, where the double and the exact computation provably
round to the same integer (see `int_remap`).  When the source range is
degenerate the Python code divides the integer 0 denominator before any
float exists and raises ZeroDivisionError at every magnitude, embedded as
`none`. -/
def remap (n : Int) (r1 r2 : Int × Int) : Option ℚ :=
  let r1_min := min r1.1 r1.2
  let r1_max := max r1.1 r1.2
  let r2_min := min r2.1 r2.2
  let r2_max := max r2.1 r2.2
  if r1_max - r1_min = 0 then none
  else
    let offset : ℚ :=
      if r1_min ≠ r1.1 then
        (((r1_max - n : Int) : ℚ) * ((r2_max - r2_min : Int) : ℚ)) / ((r1_max - r1_min : Int) : ℚ)
      else
        (((n - r1_min : Int) : ℚ) * ((r2_max - r2_min : Int) : ℚ)) / ((r1_max - r1_min : Int) : ℚ)
    some (if r2_min ≠ r2.1 then ((r2_max : Int) : ℚ) - offset else ((r2_min : Int) : ℚ) + offset)

/-- util.int_remap: `int(round(remap(n, r1, r2)))`.  Python rounds the
double computed by `remap`; this embedding rounds the exact rational.  For
arguments of magnitude ≤ 32767 the two agree exactly: the numerator is
below 2^32, so the correctly rounded quotient plus the one further rounded
addition err by less than 2^-19, while the exact result is a rational with
denominator at most 65534 — either exactly a half-integer (then every
intermediate double is exactly representable and equal to the exact value,
and both sides round half-to-even identically) or at distance at least
1/131068 > 2^-19 from every half-integer, so both round to the same
nearest integer.  All call sites in the program pass 7-bit values in
ranges (0,127) → (0,99), deep inside this domain. -/
def int_remap (n : Int) (r1 r2 : Int × Int) : Option Int :=
  (remap n r1 r2).map pyround

/-! ### struct.pack / struct.unpack "<h" -/

/-- `struct.pack("<h", v)`: two little-endian bytes of a signed 16-bit value
(`%` on `Int` is Euclidean, so `v % 65536` is the nonnegative residue, the
two's-complement bit pattern). -/
def int16ToLE (v : Int) : List Nat :=
  [((v % 65536).toNat) % 256, ((v % 65536).toNat) / 256]

/-- `struct.unpack("<h", ...)`: signed 16-bit value from two LE bytes. -/
def int16OfLE (b0 b1 : Nat) : Int :=
  if b0 + 256 * b1 < 32768 then ((b0 + 256 * b1 : Nat) : Int)
  else ((b0 + 256 * b1 : Nat) : Int) - 65536

/-- Successive `struct.unpack("<h", pcm[i*2 : i*2+2])` over an even-length
byte buffer (a trailing odd byte is never reached by the Python loops). -/
def bytesToSamples : List Nat → List Int
  | b0 :: b1 :: rest => int16OfLE b0 b1 :: bytesToSamples rest
  | _ => []

/-! ### common.py: Yamaha "DELTA-T" ADPCM decoder (class YM_ADPCM) -/

namespace YM_ADPCM

def diff_lut : List Int := [1, 3, 5, 7, 9, 11, 13, 15, -1, -3, -5, -7, -9, -11, -13, -15]
def step_lut : List Int := [57, 57, 57, 57, 77, 102, 128, 153, 57, 57, 57, 57, 77, 102, 128, 153]
def step_max : Int := 24576
def step_min : Int := 127

/-- One iteration of the decode loop: `signal += (step*diff_lut[n])/8` then
`clip_int16`, and `step = (step*step_lut[n])/64` then `clip_int`.  The float
additions/divisions are exact, and `int()` inside the clips truncates toward
zero, so the signal update is `(8*signal + step*diff) tdiv 8`. -/
def stepFn (st : Int × Int) (nibble : Nat) : Int × Int :=
  let signal := clip_int16 (Int.tdiv (8 * st.1 + st.2 * diff_lut.getD nibble 0) 8)
  let step := clip_int (Int.tdiv (st.2 * step_lut.getD nibble 0) 64) step_min step_max
  (signal, step)

/-- The sequence of signal values emitted by the decode loop from state
`(signal, step)`. -/
def signals : List Nat → Int × Int → List Int
  | [], _ => []
  | n :: ns, st =>
      let st' := stepFn st n
      st'.1 :: signals ns st'

/-- YM_ADPCM.decode: iterate over `nibbles(data, True)` from
`signal = 0, step = 127`, packing each clipped signal with
`struct.pack("<h", signal)`. -/
def decode (data : List Nat) : List Nat :=
  (signals (nibbles data true) (0, 127)).flatMap int16ToLE

end YM_ADPCM

/-! ### common.py: OKI MSM6258V ADPCM decoder (class OKI_ADPCM) -/

namespace OKI_ADPCM

/-- The sign/weight rows of `make_diff_lut` (sign, then the three weight bits). -/
def bitmap : List (Int × Nat × Nat × Nat) :=
  [(1, 0, 0, 0), (1, 0, 0, 1), (1, 0, 1, 0), (1, 0, 1, 1),
   (1, 1, 0, 0), (1, 1, 0, 1), (1, 1, 1, 0), (1, 1, 1, 1),
   (-1, 0, 0, 0), (-1, 0, 0, 1), (-1, 0, 1, 0), (-1, 0, 1, 1),
   (-1, 1, 0, 0), (-1, 1, 0, 1), (-1, 1, 1, 0), (-1, 1, 1, 1)]

/-- `int(math.floor(16.0 * pow(11.0/10.0, step)))` for `step < 49`.  The
float expression yields exactly `(16 * 11^step) / 10^step` (integer floor
division) for every step in range, so the table is embedded exactly. -/
def stepval (step : Nat) : Nat := (16 * 11 ^ step) / 10 ^ step

/-- OKI_ADPCM.make_diff_lut: 49 rows of 16 signed differences. -/
def diff_lut : List Int :=
  (List.range 49).flatMap fun step =>
    bitmap.map fun bm =>
      let sv := stepval step
      bm.1 * ((sv * bm.2.1 : Nat) + (sv / 2) * bm.2.2.1 + (sv / 4) * bm.2.2.2 + sv / 8)

def step_lut : List Int := [-1, -1, -1, -1, 2, 4, 6, 8, -1, -1, -1, -1, 2, 4, 6, 8]
def step_max : Int := 48
def step_min : Int := 0

/-- One iteration of the OKI decode loop (pure integer arithmetic in the
source).  The step index is always within [0, 48] thanks to the clip. -/
def stepFn (st : Int × Int) (nibble : Nat) : Int × Int :=
  let signal := clip_int16 (st.1 + diff_lut.getD (st.2.toNat * 16 + nibble) 0)
  let step := clip_int (st.2 + step_lut.getD nibble 0) step_min step_max
  (signal, step)

/-- The sequence of signal values emitted by the decode loop. -/
def signals : List Nat → Int × Int → List Int
  | [], _ => []
  | n :: ns, st =>
      let st' := stepFn st n
      st'.1 :: signals ns st'

/-- OKI_ADPCM.decode: iterate over `nibbles(data, False)` from
`signal = -2, step = 0`. -/
def decode (data : List Nat) : List Nat :=
  (signals (nibbles data false) (-2, 0)).flatMap int16ToLE

end OKI_ADPCM

/-! ### common.py: pcm_adjust -/

/-- common.pcm_adjust.  Odd-length input is returned unchanged.  `gain` is
embedded as an integer (the claims under verification use gain 1).
`dc_bias = summ // (len(pcm) // 2)` is Python floor division (`Int.fdiv`);
Python raises ZeroDivisionError on an empty buffer, where this embedding
returns the empty buffer. -/
def pcm_adjust (pcm : List Nat) (gain : Int) (fix_dc_offset : Bool) : List Nat :=
  if pcm.length % 2 ≠ 0 then pcm
  else
    let samples := bytesToSamples pcm
    let dc_bias : Int :=
      if fix_dc_offset then samples.sum.fdiv ((pcm.length / 2 : Nat) : Int) else 0
    (samples.map fun val => clip_int16 ((val - dc_bias) * gain)).flatMap int16ToLE

/-! ### common.py: OPM / DX7 voice data model -/

/-- OPM operator parameters (namedtuple OPMOP). -/
structure OPMOP where
  TL : Nat
  AR : Nat
  D1R : Nat
  D1L : Nat
  D2R : Nat
  RR : Nat
  KS : Nat
  MUL : Nat
  DT1 : Nat
  DT2 : Nat
  AME : Nat
deriving DecidableEq

/-- OPM voice definition (namedtuple OPMVoice); the name is a list of
character codes. -/
structure OPMVoice where
  name : List Nat
  FL : Nat
  CON : Nat
  SLOT : Nat
  NE : Nat
  NFRQ : Nat
  AMS : Nat
  PMS : Nat
  LFRQ : Nat
  WF : Nat
  PMD : Nat
  AMD : Nat
  OPM1 : OPMOP
  OPC1 : OPMOP
  OPM2 : OPMOP
  OPC2 : OPMOP
deriving DecidableEq

/-- DX7 operator parameters (namedtuple DX7OP). -/
structure DX7OP where
  R1 : Nat
  R2 : Nat
  R3 : Nat
  R4 : Nat
  L1 : Nat
  L2 : Nat
  L3 : Nat
  L4 : Nat
  BP : Nat
  LD : Nat
  RD : Nat
  LC : Nat
  RC : Nat
  DET : Nat
  RS : Nat
  AMS : Nat
  KVS : Nat
  OL : Nat
  M : Nat
  FC : Nat
  FF : Nat
deriving DecidableEq

/-- DX7 voice definition (namedtuple DX7Voice). -/
structure DX7Voice where
  name : List Nat
  PR1 : Nat
  PR2 : Nat
  PR3 : Nat
  PR4 : Nat
  PL1 : Nat
  PL2 : Nat
  PL3 : Nat
  PL4 : Nat
  ALG : Nat
  OKS : Nat
  FB : Nat
  LFS : Nat
  LFD : Nat
  LPMD : Nat
  LAMD : Nat
  LFKS : Nat
  LFW : Nat
  LPMS : Nat
  TRNP : Nat
  OPEN : Nat
  OP1 : DX7OP
  OP2 : DX7OP
  OP3 : DX7OP
  OP4 : DX7OP
  OP5 : DX7OP
  OP6 : DX7OP
deriving DecidableEq

/-- An OPM operator whose fields are within their declared bit widths
(the containers mask each field on read, so out-of-range values are
impossible by construction in the source). -/
def OPMOP.wf (op : OPMOP) : Prop :=
  op.TL < 128 ∧ op.AR < 32 ∧ op.D1R < 32 ∧ op.D1L < 16 ∧ op.D2R < 32 ∧
    op.RR < 16 ∧ op.KS < 4 ∧ op.MUL < 16 ∧ op.DT1 < 8 ∧ op.DT2 < 4 ∧ op.AME < 2

instance (op : OPMOP) : Decidable op.wf := by unfold OPMOP.wf; infer_instance

/-- An OPM voice whose fields are within their declared bit widths. -/
def OPMVoice.wf (v : OPMVoice) : Prop :=
  v.FL < 8 ∧ v.CON < 8 ∧ v.SLOT < 256 ∧ v.NE < 2 ∧ v.NFRQ < 32 ∧ v.AMS < 4 ∧
    v.PMS < 8 ∧ v.LFRQ < 128 ∧ v.WF < 4 ∧ v.PMD < 128 ∧ v.AMD < 128 ∧
    v.OPM1.wf ∧ v.OPC1.wf ∧ v.OPM2.wf ∧ v.OPC2.wf

instance (v : OPMVoice) : Decidable v.wf := by unfold OPMVoice.wf; infer_instance

/-! ### common.py: OPM -> DX7 voice conversion -/

/-- The 16-entry decay-level table indexed by `op.D1L` in OPMOP_to_DX7OP. -/
def l2_table : List Nat := [99, 93, 89, 84, 80, 75, 71, 66, 62, 57, 53, 48, 44, 39, 35, 0]

/-- The 32-entry attack-rate table indexed by `op.AR`. -/
def ar_table : List Nat :=
  [0, 15, 18, 21, 24, 27, 31, 34, 37, 40, 44, 47, 51, 54, 57, 60,
   64, 67, 71, 74, 77, 80, 83, 85, 87, 89, 91, 93, 95, 96, 98, 99]

/-- The 32-entry decay-rate table indexed by `op.D1R` (for R2) and by
`op.D2R` (for R3); the source repeats the same literal in both places. -/
def dr_table : List Nat :=
  [0, 10, 13, 16, 19, 21, 24, 27, 30, 33, 36, 39, 42, 45, 48, 51,
   54, 57, 60, 63, 66, 69, 72, 75, 78, 81, 84, 87, 90, 93, 96, 99]

/-- The 16-entry release-rate table indexed by `op.RR`. -/
def rr_table : List Nat := [0, 21, 27, 32, 38, 43, 49, 54, 60, 65, 71, 76, 82, 87, 94, 99]

/-- The 8-entry fine-detune table indexed by `op.DT1`. -/
def det_table : List Nat := [7, 8, 9, 10, 7, 6, 5, 4]

/-- The 4-entry amp-mod-sensitivity table indexed by `voice.AMS`. -/
def ams_table : List Nat := [0, 2, 3, 3]

/-- The 128-entry output-level table indexed by
`max(min(op.TL + tl_adjustment, 127), 0)`. -/
def ol_table : List Nat :=
  [98, 97, 96, 95, 94, 93, 92, 91, 90, 89, 88, 87, 86, 85, 84, 83, 82, 81, 80, 79,
   78, 77, 76, 75, 74, 73, 72, 71, 70, 69, 68, 67, 66, 65, 64, 63, 62, 61, 60, 59,
   58, 57, 56, 55, 54, 53, 52, 51, 50, 49, 48, 47, 46, 45, 44, 43, 42, 41, 40, 39,
   38, 37, 36, 35, 34, 33, 32, 31, 30, 29, 28, 27, 26, 25, 24, 23, 22, 21, 20, 20,
   19, 18, 18, 17, 16, 15, 15, 14, 14, 13, 13, 12, 12, 11, 11, 10, 10, 9, 9, 8,
   8, 7, 7, 6, 6, 5, 5, 5, 4, 4, 4, 4, 3, 3, 3, 3, 2, 2, 2, 2,
   1, 1, 1, 1, 0, 0, 0, 0]

/-- The 4-entry fine-frequency table indexed by `op.DT2`. -/
def ff_table : List Nat := [0, 41, 57, 73]

/-- common.OPMOP_to_DX7OP. -/
def OPMOP_to_DX7OP (op : OPMOP) (voice : OPMVoice) (tl_adjustment : Int) : DX7OP :=
  let L2 := l2_table.getD op.D1L 0
  let L3 := if op.D2R ≠ 0 then 0 else L2
  { R1 := ar_table.getD op.AR 0
    R2 := dr_table.getD op.D1R 0
    R3 := dr_table.getD op.D2R 0
    R4 := rr_table.getD op.RR 0
    L1 := 99
    L2 := L2
    L3 := L3
    L4 := 0
    BP := 0
    LD := 0
    RD := 0
    LC := 0
    RC := 0
    DET := det_table.getD op.DT1 0
    RS := 0
    AMS := ams_table.getD voice.AMS 0
    KVS := 0
    OL := ol_table.getD (max (min ((op.TL : Int) + tl_adjustment) 127) 0).toNat 0
    M := 0
    FC := op.MUL
    FF := ff_table.getD op.DT2 0 }

/-- common.default_DX7OP. -/
def default_DX7OP : DX7OP :=
  { R1 := 99, R2 := 99, R3 := 99, R4 := 99
    L1 := 99, L2 := 99, L3 := 90, L4 := 0
    BP := 36, LD := 0, RD := 0, LC := 0, RC := 0
    DET := 7, RS := 0, AMS := 0, KVS := 0
    OL := 99, M := 0, FC := 1, FF := 0 }

/-- common.default_DX7Voice: the "INIT VOICE" default (name given as its
ASCII character codes). -/
def default_DX7Voice : DX7Voice :=
  { name := [73, 78, 73, 84, 32, 86, 79, 73, 67, 69]
    PR1 := 50, PR2 := 50, PR3 := 50, PR4 := 50
    PL1 := 50, PL2 := 50, PL3 := 50, PL4 := 50
    ALG := 0, OKS := 1, FB := 0
    LFS := 0, LFD := 0, LPMD := 0, LAMD := 0, LFKS := 0, LFW := 0, LPMS := 0
    TRNP := 24
    OPEN := 0x20
    OP1 := default_DX7OP, OP2 := default_DX7OP, OP3 := default_DX7OP
    OP4 := default_DX7OP, OP5 := default_DX7OP, OP6 := default_DX7OP }

/-- The 8-entry algorithm mapping of OPMVoice_to_DX7Voice. -/
def algorithm_mapping : List Nat := [0, 13, 7, 6, 4, 21, 30, 31]

/-- The per-OPM-algorithm, per-operator TL adjustment table of
OPMVoice_to_DX7Voice. -/
def tl_adjustment : List (List Int) :=
  [[-8, -8, -8, 0],
   [-8, -8, -8, 0],
   [-8, -8, -8, 0],
   [-8, -8, -8, 0],
   [-8, 0, 0, 0],
   [-8, 0, 0, 0],
   [-8, 0, 0, 0],
   [0, 0, 0, 0]]

/-- The 4-entry LFO waveform permutation of OPMVoice_to_DX7Voice. -/
def lfw_table : List Nat := [2, 3, 0, 5]

/-- common.OPMVoice_to_DX7Voice.  `int_remap` with the ranges used here is
always `some` (the source ranges are non-degenerate), so the `getD 0`
defaults are never taken. -/
def OPMVoice_to_DX7Voice (opmv : OPMVoice) : DX7Voice :=
  let alg := algorithm_mapping.getD opmv.CON 0
  let adjRow := tl_adjustment.getD opmv.CON []
  -- Convert operators
  let op6 := OPMOP_to_DX7OP opmv.OPM1 opmv (adjRow.getD 0 0)
  let op5 := OPMOP_to_DX7OP opmv.OPC1 opmv (adjRow.getD 1 0)
  let op4 := OPMOP_to_DX7OP opmv.OPM2 opmv (adjRow.getD 2 0)
  let op3 := OPMOP_to_DX7OP opmv.OPC2 opmv (adjRow.getD 3 0)
  -- Re-order operators for algorithms lacking a 1:1 match:
  -- Python `op4, op5, op6 = op6, op4, op5` when CON == 2
  let ops :=
    if opmv.CON = 2 then (op3, op6, op4, op5) else (op3, op4, op5, op6)
  { name := opmv.name.take 10
    PR1 := 50, PR2 := 50, PR3 := 50, PR4 := 50
    PL1 := 50, PL2 := 50, PL3 := 50, PL4 := 50
    ALG := alg
    OKS := 0
    FB := opmv.FL
    LFS := ((int_remap (opmv.LFRQ : Int) (0, 127) (0, 99)).getD 0).toNat
    LFD := 0
    LPMD := ((int_remap (opmv.PMD : Int) (0, 127) (0, 99)).getD 0).toNat
    LAMD := ((int_remap (opmv.AMD : Int) (0, 127) (0, 99)).getD 0).toNat
    LFKS := 0
    LFW := lfw_table.getD opmv.WF 0
    LPMS := opmv.PMS
    TRNP := 24
    OPEN := 0x0F &&& opmv.SLOT
    OP6 := ops.2.2.2, OP5 := ops.2.2.1, OP4 := ops.2.1, OP3 := ops.1
    OP2 := default_DX7OP, OP1 := default_DX7OP }

/-! ### common.py: packed_DX7Voice and sysex_from_DX7Voices -/

/-- The 17 bytes contributed by one operator in packed_DX7Voice.
`enabled` is `v.OPEN & (1 << i)`: the output-level byte is `op.OL` when it
is nonzero and `0x00` otherwise. -/
def packedOp (op : DX7OP) (enabled : Nat) : List Nat :=
  [op.R1, op.R2, op.R3, op.R4, op.L1, op.L2, op.L3, op.L4,
   op.BP, op.LD, op.RD,
   ((op.RC <<< 2) &&& 0x0C) ||| (op.LC &&& 0x03),
   ((min op.DET 14 <<< 3) &&& 0x78) ||| (op.RS &&& 0x07),
   ((op.KVS <<< 2) &&& 0x1C) ||| (op.AMS &&& 0x03),
   if enabled ≠ 0 then op.OL else 0x00,
   ((op.FC <<< 1) &&& 0x3E) ||| (op.M &&& 0x01),
   op.FF]

/-- The voice-level bytes appended after the six operator blocks; the name
is `ljust(10)[:10]` then ASCII-encoded (embedded as its character codes). -/
def packedVoiceSettings (v : DX7Voice) : List Nat :=
  [v.PR1, v.PR2, v.PR3, v.PR4, v.PL1, v.PL2, v.PL3, v.PL4, v.ALG] ++
  [((v.OKS <<< 4) &&& 0x10) ||| (v.FB &&& 0x07)] ++
  [v.LFS, v.LFD, v.LPMD, v.LAMD] ++
  [((v.LPMS <<< 4) &&& 0x70) ||| ((v.LFW <<< 1) &&& 0x0E) ||| (v.LFKS &&& 0x01)] ++
  [v.TRNP &&& 0x1F] ++
  (v.name ++ List.replicate (10 - v.name.length) 32).take 10

/-- common.packed_DX7Voice: the loop over `[v.OP6, v.OP5, v.OP4, v.OP3,
v.OP2, v.OP1]` (enable bits i = 0..5) unrolled, followed by the voice
settings; bit 7 of every byte is stripped at the end. -/
def packed_DX7Voice (v : DX7Voice) : List Nat :=
  ((packedOp v.OP6 (v.OPEN &&& (1 <<< 0)) ++
    packedOp v.OP5 (v.OPEN &&& (1 <<< 1)) ++
    packedOp v.OP4 (v.OPEN &&& (1 <<< 2)) ++
    packedOp v.OP3 (v.OPEN &&& (1 <<< 3)) ++
    packedOp v.OP2 (v.OPEN &&& (1 <<< 4)) ++
    packedOp v.OP1 (v.OPEN &&& (1 <<< 5)) ++
    packedVoiceSettings v).map fun x => x &&& 0x7F)

/-- The state of the caller's voice list after sysex_from_DX7Voices ran:
the Python function pads the list in place (`dx7vs.append(...)` for
`range(len(dx7vs), 32)`). -/
def padded_DX7Voices (dx7vs : List DX7Voice) : List DX7Voice :=
  dx7vs ++ List.replicate (32 - dx7vs.length) default_DX7Voice

/-- The `data` bytearray of sysex_from_DX7Voices: the packed definitions of
`dx7vs[:32]` after padding. -/
def bulk_data (dx7vs : List DX7Voice) : List Nat :=
  ((padded_DX7Voices dx7vs).take 32).flatMap packed_DX7Voice

/-- The checksum byte `((~sum(data)) + 1) & 0x7F` of sysex_from_DX7Voices,
i.e. `(-sum(data)) mod 128`. -/
def bulk_checksum (dx7vs : List DX7Voice) : Nat :=
  (128 - (bulk_data dx7vs).sum % 128) % 128

/-- common.sysex_from_DX7Voices.  The Python function mutates its argument
list by appending default voices until it has 32 entries; the embedding
returns the final state of that list together with the sysex bytes. -/
def sysex_from_DX7Voices (dx7vs : List DX7Voice) : List DX7Voice × List Nat :=
  (padded_DX7Voices dx7vs,
   [0xF0, 0x43, 0x00, 0x09, 0x20, 0x00] ++ bulk_data dx7vs ++ [bulk_checksum dx7vs, 0xF7])

/-! ### pdx2wav.py: PDX parser -/

/-- One `(offset, length)` pair of the PDX offset table:
`(get_uint32(data, i*8, True), get_uint32(data, 4 + i*8, True))`. -/
def PDX_pcm_offset (data : List Nat) (i : Nat) : Nat × Nat :=
  (get_uint32 data (i * 8) true, get_uint32 data (4 + i * 8) true)

/-- pdx2wav.PDX.__init__.  The first loop reads 96 big-endian
(offset, length) pairs at stride 8; in Python each `get_uint32` indexes the
bytearray directly and raises IndexError when the table does not fit, which
happens exactly when the buffer is shorter than 768 bytes — embedded as
`none`.  The second loop (enumerate fused into the map below) decodes slot
`i` iff `length > 1` and `offset + length <= len(data)`, storing `None`
placeholders otherwise; the slot name `"{:03}".format(i)` is modelled by
the index `i` itself. -/
def PDX_init (data : List Nat) : Option (List (Option (List Nat × Nat))) :=
  if 768 ≤ data.length then
    some ((List.range 96).map fun i =>
      let po := PDX_pcm_offset data i
      if 1 < po.2 ∧ po.1 + po.2 ≤ data.length then
        some (OKI_ADPCM.decode ((data.drop po.1).take po.2), i)
      else none)
  else none

/-! ## Claim-side definitions and theorems -/

/-! ### C2: the DELTA-T decoder follows the spec's description -/

/-- The diff table exactly as the spec states it. -/
def deltaT_spec_diff : List Int := [1, 3, 5, 7, 9, 11, 13, 15, -1, -3, -5, -7, -9, -11, -13, -15]

/-- The step-multiplier table exactly as the spec states it
(57, 57, 57, 57, 77, 102, 128, 153 repeated for both sign classes). -/
def deltaT_spec_stepmul : List Int := [57, 57, 57, 57, 77, 102, 128, 153, 57, 57, 57, 57, 77, 102, 128, 153]

/-- The nibble stream in high-nibble-first order, written arithmetically. -/
def highNibbleFirstStream (data : List Nat) : List Nat :=
  data.flatMap fun byte => [byte / 16 % 16, byte % 16]

/-- The per-nibble update loop as the spec describes it: add
`step*diff[n]/8` to the signal, clamp to [-32768, 32767], set the step to
`step*stepmul[n]/64`, clamp to [127, 24576], and emit the clamped signal as
one little-endian signed 16-bit sample.  The divisions truncate toward
zero, performed on the exact value `signal + step*diff[n]/8`. -/
def deltaT_spec_run : List Nat → Int → Int → List Nat
  | [], _, _ => []
  | n :: ns, signal, step =>
      let signal' := max (-32768) (min (Int.tdiv (8 * signal + step * deltaT_spec_diff.getD n 0) 8) 32767)
      let step' := max 127 (min (Int.tdiv (step * deltaT_spec_stepmul.getD n 0) 64) 24576)
      int16ToLE signal' ++ deltaT_spec_run ns signal' step'

/-- The whole decoder as the spec describes it: high nibble first, initial
signal 0, initial step 127. -/
def deltaT_spec (data : List Nat) : List Nat :=
  deltaT_spec_run (highNibbleFirstStream data) 0 127

theorem nibbles_true_eq_highFirst (data : List Nat) :
    nibbles data true = highNibbleFirstStream data := by
  simp only [nibbles, highNibbleFirstStream, if_true]
  congr 1
  funext byte
  have h1 := Nat.and_pow_two_sub_one_eq_mod (byte >>> 4) 4
  have h2 := Nat.and_pow_two_sub_one_eq_mod byte 4
  have h3 := Nat.shiftRight_eq_div_pow byte 4
  norm_num at h1 h2 h3
  simp [h3] at h1
  simp [h1, h2, h3, Nat.shiftRight_zero]

theorem ym_run_matches_spec (ns : List Nat) : ∀ signal step : Int,
    (YM_ADPCM.signals ns (signal, step)).flatMap int16ToLE = deltaT_spec_run ns signal step := by
  induction ns with
  | nil => intro s t; rfl
  | cons n ns ih =>
      intro s t
      simp only [YM_ADPCM.signals, YM_ADPCM.stepFn, deltaT_spec_run, clip_int16, clip_int,
        YM_ADPCM.diff_lut, deltaT_spec_diff, YM_ADPCM.step_lut, deltaT_spec_stepmul,
        YM_ADPCM.step_min, YM_ADPCM.step_max, List.flatMap_cons, ih]

/-- **C2**: `YM_ADPCM.decode` processes nibbles high-nibble-first starting
from signal 0 and step 127; for each nibble `n` it adds `step*diff[n]/8`
to the signal (diff = {1,3,...,15,-1,...,-15}), clamps the signal to
[-32768, 32767], sets the step to `step*stepmul[n]/64`
(stepmul = {57,57,57,57,77,102,128,153} repeated for both sign classes),
clamps the step to [127, 24576], and emits the clamped signal as one
little-endian signed 16-bit sample. -/
theorem ym_decode_matches_spec (data : List Nat) :
    YM_ADPCM.decode data = deltaT_spec data := by
  unfold YM_ADPCM.decode deltaT_spec
  rw [nibbles_true_eq_highFirst, ym_run_matches_spec]

/-! ### C10: decoded size and sample range -/

theorem length_flatMap_int16ToLE (l : List Int) :
    (l.flatMap int16ToLE).length = 2 * l.length := by
  induction l with
  | nil => rfl
  | cons v l ih => simp [int16ToLE, ih]; ring

theorem length_nibbles (data : List Nat) (b : Bool) :
    (nibbles data b).length = 2 * data.length := by
  induction data with
  | nil => cases b <;> rfl
  | cons x l ih =>
      cases b <;> simp [nibbles] at ih ⊢ <;> omega

theorem length_ym_signals (ns : List Nat) : ∀ st : Int × Int,
    (YM_ADPCM.signals ns st).length = ns.length := by
  induction ns with
  | nil => intro st; rfl
  | cons n ns ih => intro st; simp [YM_ADPCM.signals, ih]

theorem length_oki_signals (ns : List Nat) : ∀ st : Int × Int,
    (OKI_ADPCM.signals ns st).length = ns.length := by
  induction ns with
  | nil => intro st; rfl
  | cons n ns ih => intro st; simp [OKI_ADPCM.signals, ih]

theorem clip_int16_mem_range (v : Int) :
    -32768 ≤ clip_int16 v ∧ clip_int16 v ≤ 32767 := by
  unfold clip_int16; omega

theorem ym_signals_range (ns : List Nat) : ∀ st : Int × Int,
    (YM_ADPCM.signals ns st).Forall fun s => -32768 ≤ s ∧ s ≤ 32767 := by
  induction ns with
  | nil => intro st; trivial
  | cons n ns ih =>
      intro st
      simp only [YM_ADPCM.signals, List.forall_cons]
      exact ⟨clip_int16_mem_range _, ih _⟩

theorem oki_signals_range (ns : List Nat) : ∀ st : Int × Int,
    (OKI_ADPCM.signals ns st).Forall fun s => -32768 ≤ s ∧ s ≤ 32767 := by
  induction ns with
  | nil => intro st; trivial
  | cons n ns ih =>
      intro st
      simp only [OKI_ADPCM.signals, List.forall_cons]
      exact ⟨clip_int16_mem_range _, ih _⟩

/-- **C10**: for every input byte sequence of length N, each ADPCM decoder
(the DELTA-T codec and the OKI codec) returns a decoded buffer of exactly
4*N bytes — two nibbles per input byte, each nibble emitting one 2-byte
little-endian sample — and every emitted sample value lies in
[-32768, 32767]. -/
theorem adpcm_decode_length_range (data : List Nat) :
    (YM_ADPCM.decode data).length = 4 * data.length ∧
    (OKI_ADPCM.decode data).length = 4 * data.length ∧
    (∀ v : Int, (int16ToLE v).length = 2) ∧
    ((YM_ADPCM.signals (nibbles data true) (0, 127)).Forall fun s => -32768 ≤ s ∧ s ≤ 32767) ∧
    ((OKI_ADPCM.signals (nibbles data false) (-2, 0)).Forall fun s => -32768 ≤ s ∧ s ≤ 32767) := by
  refine ⟨?_, ?_, fun v => rfl, ym_signals_range _ _, oki_signals_range _ _⟩
  · unfold YM_ADPCM.decode
    rw [length_flatMap_int16ToLE, length_ym_signals, length_nibbles]; ring
  · unfold OKI_ADPCM.decode
    rw [length_flatMap_int16ToLE, length_oki_signals, length_nibbles]; ring

/-! ### C1: structure of the 32-voice bulk sysex message -/

theorem length_packedVoiceSettings (v : DX7Voice) :
    (packedVoiceSettings v).length = 26 := by
  simp [packedVoiceSettings]
  omega

theorem length_packed_DX7Voice (v : DX7Voice) :
    (packed_DX7Voice v).length = 128 := by
  simp [packed_DX7Voice, packedOp, length_packedVoiceSettings]

theorem length_flatMap_packed (l : List DX7Voice) :
    (l.flatMap packed_DX7Voice).length = 128 * l.length := by
  induction l with
  | nil => rfl
  | cons v l ih => simp [length_packed_DX7Voice, ih]; ring

/-- **C1**: the voice-bulk serializer returns the 6-byte header
`F0 43 00 09 20 00`, then exactly 4096 data bytes formed from 32 voice
records of exactly 128 bytes each — the input voices followed by default
"INIT VOICE" padding up to 32 — then one checksum byte below 128, then
`F7`; and the sum of the data bytes plus the checksum byte is congruent to
0 modulo 128.  (Proved for every input list; the claim's premise of at most
32 byte-valued, ASCII-named voices guarantees the Python code reaches this
result without a runtime error, and is subsumed.) -/
theorem sysex_bulk_structure (vs : List DX7Voice) :
    (sysex_from_DX7Voices vs).2
        = [0xF0, 0x43, 0x00, 0x09, 0x20, 0x00] ++ bulk_data vs ++ [bulk_checksum vs, 0xF7]
    ∧ bulk_data vs
        = ((vs ++ List.replicate (32 - vs.length) default_DX7Voice).take 32).flatMap packed_DX7Voice
    ∧ ((vs ++ List.replicate (32 - vs.length) default_DX7Voice).take 32).length = 32
    ∧ (∀ v : DX7Voice, (packed_DX7Voice v).length = 128)
    ∧ (bulk_data vs).length = 4096
    ∧ bulk_checksum vs < 128
    ∧ ((bulk_data vs).sum + bulk_checksum vs) % 128 = 0 := by
  refine ⟨rfl, rfl, ?_, length_packed_DX7Voice, ?_, ?_, ?_⟩
  · simp; omega
  · unfold bulk_data padded_DX7Voices
    rw [length_flatMap_packed]
    simp; omega
  · exact Nat.mod_lt _ (by norm_num)
  · unfold bulk_checksum
    omega

/-! ### C9: the serializer mutates the caller's list -/

/-- **C9 counterexample**: the claim says the voice-bulk serializer leaves
a list of fewer than 32 voices with its original length; but
sysex_from_DX7Voices pads the caller's list in place, so after a call on
the empty list the caller's list has length 32, not 0. -/
theorem sysex_mutates_caller_list :
    ((sysex_from_DX7Voices []).1).length ≠ ([] : List DX7Voice).length := by
  simp [sysex_from_DX7Voices, padded_DX7Voices]

/-- **C9 (amended)**: the serializer does not leave a short caller's list
unchanged; instead it appends default voices in place until the list has 32
entries.  The original elements survive as a prefix, but the length becomes
32 rather than staying at its original value. -/
theorem sysex_pads_caller_list (vs : List DX7Voice) (h : vs.length < 32) :
    (sysex_from_DX7Voices vs).1 = vs ++ List.replicate (32 - vs.length) default_DX7Voice
    ∧ ((sysex_from_DX7Voices vs).1).length = 32
    ∧ ((sysex_from_DX7Voices vs).1).take vs.length = vs := by
  refine ⟨rfl, ?_, ?_⟩
  · simp [sysex_from_DX7Voices, padded_DX7Voices]
    omega
  · show (padded_DX7Voices vs).take vs.length = vs
    unfold padded_DX7Voices
    exact List.take_left vs _

theorem sysex_pads_caller_list_witness :
    ([] : List DX7Voice).length < 32
    ∧ ((sysex_from_DX7Voices []).1
          = [] ++ List.replicate (32 - ([] : List DX7Voice).length) default_DX7Voice
        ∧ ((sysex_from_DX7Voices []).1).length = 32
        ∧ ((sysex_from_DX7Voices []).1).take ([] : List DX7Voice).length = []) :=
  ⟨by decide, sysex_pads_caller_list [] (by decide)⟩

/-! ### C3: the output-level lookup is monotonically non-increasing -/

/-- Adjacent-pair check: each element is at least the next one. -/
def nonincreasing : List Nat → Bool
  | a :: b :: rest => decide (b ≤ a) && nonincreasing (b :: rest)
  | _ => true

theorem nonincreasing_adjacent :
    ∀ l : List Nat, nonincreasing l = true → ∀ j, l.getD (j + 1) 0 ≤ l.getD j 0
  | [], _, j => by simp [List.getD]
  | [a], _, j => by
      cases j <;> simp [List.getD]
  | a :: b :: rest, h, j => by
      rw [nonincreasing, Bool.and_eq_true, decide_eq_true_eq] at h
      cases j with
      | zero => simpa using h.1
      | succ j => simpa using nonincreasing_adjacent (b :: rest) h.2 j

theorem nonincreasing_getD_le (l : List Nat) (h : nonincreasing l = true)
    (i j : Nat) (hij : i ≤ j) : l.getD j 0 ≤ l.getD i 0 := by
  obtain ⟨k, rfl⟩ : ∃ k, j = i + k := ⟨j - i, by omega⟩
  clear hij
  induction k with
  | zero => simp
  | succ k ih => exact le_trans (nonincreasing_adjacent l h (i + k)) ih

theorem ol_table_nonincreasing : nonincreasing ol_table = true := by decide

/-- **C3**: the output level in `OPMOP_to_DX7OP` is produced by the
128-entry lookup `ol_table` at the biased index clamped to [0, 127], and —
for every source total level 0–127 and every algorithm/operator-slot bias
taken from the 8×4 adjustment table — that lookup is monotonically
non-increasing as the biased, clamped index increases. -/
theorem ol_lookup_antitone (alg slot tl tl' : Nat)
    (h1 : alg < 8) (h2 : slot < 4) (h3 : tl ≤ 127) (h4 : tl' ≤ 127) (h5 : tl ≤ tl') :
    (∀ (op : OPMOP) (voice : OPMVoice) (adj : Int),
        (OPMOP_to_DX7OP op voice adj).OL
          = ol_table.getD (max (min ((op.TL : Int) + adj) 127) 0).toNat 0)
    ∧ ol_table.getD
        (max (min ((tl' : Int) + (tl_adjustment.getD alg []).getD slot 0) 127) 0).toNat 0
      ≤ ol_table.getD
        (max (min ((tl : Int) + (tl_adjustment.getD alg []).getD slot 0) 127) 0).toNat 0 := by
  refine ⟨fun op voice adj => rfl, ?_⟩
  apply nonincreasing_getD_le ol_table ol_table_nonincreasing
  omega

theorem ol_lookup_antitone_witness :
    ((0 : Nat) < 8 ∧ (0 : Nat) < 4 ∧ (10 : Nat) ≤ 127 ∧ (20 : Nat) ≤ 127 ∧ (10 : Nat) ≤ 20)
    ∧ ((∀ (op : OPMOP) (voice : OPMVoice) (adj : Int),
          (OPMOP_to_DX7OP op voice adj).OL
            = ol_table.getD (max (min ((op.TL : Int) + adj) 127) 0).toNat 0)
      ∧ ol_table.getD
          (max (min (((20 : Nat) : Int) + (tl_adjustment.getD 0 []).getD 0 0) 127) 0).toNat 0
        ≤ ol_table.getD
          (max (min (((10 : Nat) : Int) + (tl_adjustment.getD 0 []).getD 0 0) 127) 0).toNat 0) :=
  ⟨⟨by decide, by decide, by decide, by decide, by decide⟩,
   ol_lookup_antitone 0 0 10 20 (by decide) (by decide) (by decide) (by decide) (by decide)⟩

/-! ### C8: the 4-to-6 operator transcoder never enables the extra slots -/

/-- The output-level byte of operator block `i` (byte `17*i + 14` of the
packed voice) is the operator's OL with bit 7 stripped when enable bit `i`
is set, and 0 otherwise. -/
theorem packed_OL_byte (w : DX7Voice) (i : Fin 6) :
    (packed_DX7Voice w).getD (17 * i.val + 14) 0
      = if w.OPEN &&& (1 <<< i.val) ≠ 0
        then ([w.OP6, w.OP5, w.OP4, w.OP3, w.OP2, w.OP1].getD i.val default_DX7OP).OL &&& 0x7F
        else 0 := by
  fin_cases i <;>
    [(by_cases h : w.OPEN &&& (1 <<< 0) = 0);
     (by_cases h : w.OPEN &&& (1 <<< 1) = 0);
     (by_cases h : w.OPEN &&& (1 <<< 2) = 0);
     (by_cases h : w.OPEN &&& (1 <<< 3) = 0);
     (by_cases h : w.OPEN &&& (1 <<< 4) = 0);
     (by_cases h : w.OPEN &&& (1 <<< 5) = 0)] <;>
  · simp at h
    simp [packed_DX7Voice, packedOp, packedVoiceSettings, h, List.getD]

/-- **C8**: the transcoded voice's operator-enable mask is the source slot
mask masked to its low 4 bits (bits 4 and 5 clear), the two extra operator
slots hold the fixed default operator, and in the packed wire format the
output-level byte of every disabled operator slot — in particular of the
two extra slots — is 0. -/
theorem opm_to_dx7_extra_ops (v : OPMVoice) (h : v.wf) :
    (OPMVoice_to_DX7Voice v).OPEN = 0x0F &&& v.SLOT
    ∧ (OPMVoice_to_DX7Voice v).OPEN &&& 0x30 = 0
    ∧ (OPMVoice_to_DX7Voice v).OP1 = default_DX7OP
    ∧ (OPMVoice_to_DX7Voice v).OP2 = default_DX7OP
    ∧ (packed_DX7Voice (OPMVoice_to_DX7Voice v)).getD (17 * 4 + 14) 0 = 0
    ∧ (packed_DX7Voice (OPMVoice_to_DX7Voice v)).getD (17 * 5 + 14) 0 = 0
    ∧ ∀ i : Fin 6,
        (packed_DX7Voice (OPMVoice_to_DX7Voice v)).getD (17 * i.val + 14) 0
          = if (OPMVoice_to_DX7Voice v).OPEN &&& (1 <<< i.val) ≠ 0
            then (([(OPMVoice_to_DX7Voice v).OP6, (OPMVoice_to_DX7Voice v).OP5,
                    (OPMVoice_to_DX7Voice v).OP4, (OPMVoice_to_DX7Voice v).OP3,
                    (OPMVoice_to_DX7Voice v).OP2, (OPMVoice_to_DX7Voice v).OP1].getD
                      i.val default_DX7OP).OL) &&& 0x7F
            else 0 := by
  have hOPEN : (OPMVoice_to_DX7Voice v).OPEN = 0x0F &&& v.SLOT := rfl
  have h48 : (OPMVoice_to_DX7Voice v).OPEN &&& 0x30 = 0 := by
    rw [hOPEN, Nat.and_comm 0x0F v.SLOT, Nat.and_assoc]
    show v.SLOT &&& 0 = 0
    exact Nat.and_zero v.SLOT
  have hbit : ∀ b : Nat, 0x30 &&& b = b → (OPMVoice_to_DX7Voice v).OPEN &&& b = 0 := by
    intro b hb
    rw [← hb, ← Nat.and_assoc, h48, Nat.zero_and]
  refine ⟨hOPEN, h48, rfl, rfl, ?_, ?_, packed_OL_byte _⟩
  · have := packed_OL_byte (OPMVoice_to_DX7Voice v) ⟨4, by norm_num⟩
    rw [this, if_neg]
    simp only [ne_eq, not_not]
    exact hbit (1 <<< 4) rfl
  · have := packed_OL_byte (OPMVoice_to_DX7Voice v) ⟨5, by norm_num⟩
    rw [this, if_neg]
    simp only [ne_eq, not_not]
    exact hbit (1 <<< 5) rfl

/-- A concrete well-formed OPM voice used to witness the transcoder
theorems. -/
def sampleOPMOP : OPMOP :=
  { TL := 0, AR := 0, D1R := 0, D1L := 0, D2R := 0, RR := 0, KS := 0,
    MUL := 0, DT1 := 0, DT2 := 0, AME := 0 }

def sampleOPMVoice : OPMVoice :=
  { name := [], FL := 0, CON := 0, SLOT := 0x0F, NE := 0, NFRQ := 0, AMS := 0,
    PMS := 0, LFRQ := 0, WF := 0, PMD := 0, AMD := 0,
    OPM1 := sampleOPMOP, OPC1 := sampleOPMOP, OPM2 := sampleOPMOP, OPC2 := sampleOPMOP }

theorem opm_to_dx7_extra_ops_witness :
    sampleOPMVoice.wf
    ∧ ((OPMVoice_to_DX7Voice sampleOPMVoice).OPEN = 0x0F &&& sampleOPMVoice.SLOT
      ∧ (OPMVoice_to_DX7Voice sampleOPMVoice).OPEN &&& 0x30 = 0
      ∧ (OPMVoice_to_DX7Voice sampleOPMVoice).OP1 = default_DX7OP
      ∧ (OPMVoice_to_DX7Voice sampleOPMVoice).OP2 = default_DX7OP
      ∧ (packed_DX7Voice (OPMVoice_to_DX7Voice sampleOPMVoice)).getD (17 * 4 + 14) 0 = 0
      ∧ (packed_DX7Voice (OPMVoice_to_DX7Voice sampleOPMVoice)).getD (17 * 5 + 14) 0 = 0
      ∧ ∀ i : Fin 6,
          (packed_DX7Voice (OPMVoice_to_DX7Voice sampleOPMVoice)).getD (17 * i.val + 14) 0
            = if (OPMVoice_to_DX7Voice sampleOPMVoice).OPEN &&& (1 <<< i.val) ≠ 0
              then (([(OPMVoice_to_DX7Voice sampleOPMVoice).OP6,
                      (OPMVoice_to_DX7Voice sampleOPMVoice).OP5,
                      (OPMVoice_to_DX7Voice sampleOPMVoice).OP4,
                      (OPMVoice_to_DX7Voice sampleOPMVoice).OP3,
                      (OPMVoice_to_DX7Voice sampleOPMVoice).OP2,
                      (OPMVoice_to_DX7Voice sampleOPMVoice).OP1].getD
                        i.val default_DX7OP).OL) &&& 0x7F
              else 0) :=
  ⟨by decide, opm_to_dx7_extra_ops sampleOPMVoice (by decide)⟩

/-! ### C4: DC-bias normalization is not idempotent when clipping occurs -/

/-- **C4 counterexample**: the even-length 6-byte buffer encoding the
samples [-32768, -32768, 32767].  The first pass computes mean -10923 and
clips the third sample (32767 + 10923 → 32767), so the output's mean is no
longer 0 and a second pass shifts the samples again: twice ≠ once. -/
theorem pcm_adjust_not_idempotent :
    pcm_adjust (pcm_adjust [0x00, 0x80, 0x00, 0x80, 0xFF, 0x7F] 1 true) 1 true
      ≠ pcm_adjust [0x00, 0x80, 0x00, 0x80, 0xFF, 0x7F] 1 true := by
  decide

theorem length_bytesToSamples : ∀ pcm : List Nat,
    (bytesToSamples pcm).length = pcm.length / 2
  | [] => rfl
  | [_] => by simp [bytesToSamples]
  | b0 :: b1 :: rest => by
      have ih := length_bytesToSamples rest
      simp [bytesToSamples, ih]
      omega

theorem sum_map_sub (l : List Int) (m : Int) :
    (l.map fun x => x - m).sum = l.sum - l.length * m := by
  induction l with
  | nil => simp
  | cons x l ih =>
      simp [ih]
      ring

theorem clip_int16_eq_self (v : Int) (h1 : -32768 ≤ v) (h2 : v ≤ 32767) :
    clip_int16 v = v := by
  unfold clip_int16; omega

theorem bytesToSamples_flatMap_int16ToLE (l : List Int)
    (h : ∀ v ∈ l, -32768 ≤ v ∧ v ≤ 32767) :
    bytesToSamples (l.flatMap int16ToLE) = l := by
  induction l with
  | nil => rfl
  | cons v l ih =>
      have hv := h v (List.mem_cons_self v l)
      have htail : bytesToSamples (l.flatMap int16ToLE) = l :=
        ih fun x hx => h x (List.mem_cons_of_mem v hx)
      rw [List.flatMap_cons, int16ToLE]
      simp only [List.cons_append, List.nil_append]
      show int16OfLE _ _ :: bytesToSamples (l.flatMap int16ToLE) = v :: l
      rw [htail]
      congr 1
      unfold int16OfLE
      split <;> omega

/-- Evaluation of pcm_adjust on an even-length buffer with DC fixing on. -/
theorem pcm_adjust_eval (pcm : List Nat) (gain : Int) (heven : pcm.length % 2 = 0) :
    pcm_adjust pcm gain true
      = ((bytesToSamples pcm).map fun val =>
          clip_int16 ((val - (bytesToSamples pcm).sum.fdiv ((pcm.length / 2 : Nat) : Int)) * gain)).flatMap
            int16ToLE := by
  unfold pcm_adjust
  rw [if_neg (by omega)]
  rfl

/-- **C4 (amended)**: pcm_adjust with gain 1 and DC-offset fixing is
idempotent on every nonempty even-length buffer on which the first pass
clips no sample (each sample minus the computed mean already lies in
[-32768, 32767]).  Without that proviso idempotence fails (see the
counterexample); nonemptiness is required because Python divides by the
sample count. -/
theorem pcm_adjust_idempotent_no_clip (pcm : List Nat)
    (hne : pcm ≠ []) (heven : pcm.length % 2 = 0)
    (hnoclip : ∀ x ∈ bytesToSamples pcm,
        -32768 ≤ x - (bytesToSamples pcm).sum.fdiv ((pcm.length / 2 : Nat) : Int)
        ∧ x - (bytesToSamples pcm).sum.fdiv ((pcm.length / 2 : Nat) : Int) ≤ 32767) :
    pcm_adjust (pcm_adjust pcm 1 true) 1 true = pcm_adjust pcm 1 true := by
  have hlen : 2 ≤ pcm.length := by
    have : 0 < pcm.length := List.length_pos.mpr hne
    omega
  have hn0 : (0 : Int) < ((pcm.length / 2 : Nat) : Int) := by omega
  have h1 : pcm_adjust pcm 1 true
      = ((bytesToSamples pcm).map fun x =>
          x - (bytesToSamples pcm).sum.fdiv ((pcm.length / 2 : Nat) : Int)).flatMap
            int16ToLE := by
    rw [pcm_adjust_eval pcm 1 heven]
    congr 1
    apply List.map_congr_left
    intro x hx
    rw [mul_one]
    exact clip_int16_eq_self _ (hnoclip x hx).1 (hnoclip x hx).2
  rw [h1]
  have hys : ∀ v ∈ ((bytesToSamples pcm).map fun x =>
      x - (bytesToSamples pcm).sum.fdiv ((pcm.length / 2 : Nat) : Int)),
      -32768 ≤ v ∧ v ≤ 32767 := by
    intro v hv
    rw [List.mem_map] at hv
    obtain ⟨x, hx, rfl⟩ := hv
    exact hnoclip x hx
  have hlen2 : (((bytesToSamples pcm).map fun x =>
      x - (bytesToSamples pcm).sum.fdiv ((pcm.length / 2 : Nat) : Int)).flatMap
        int16ToLE).length
      = 2 * (bytesToSamples pcm).length := by
    rw [length_flatMap_int16ToLE, List.length_map]
  rw [pcm_adjust_eval _ 1 (by omega)]
  rw [bytesToSamples_flatMap_int16ToLE _ hys]
  have hbias2 : (((bytesToSamples pcm).map fun x =>
      x - (bytesToSamples pcm).sum.fdiv ((pcm.length / 2 : Nat) : Int)).sum).fdiv
        (((((bytesToSamples pcm).map fun x =>
            x - (bytesToSamples pcm).sum.fdiv ((pcm.length / 2 : Nat) : Int)).flatMap
              int16ToLE).length / 2 : Nat) : Int) = 0 := by
    rw [sum_map_sub]
    have hxslen : ((bytesToSamples pcm).length : Int) = ((pcm.length / 2 : Nat) : Int) := by
      rw [length_bytesToSamples]
    rw [hxslen]
    have hcast : ((((((bytesToSamples pcm).map fun x =>
        x - (bytesToSamples pcm).sum.fdiv ((pcm.length / 2 : Nat) : Int)).flatMap
          int16ToLE).length / 2 : Nat) : Int)) = ((pcm.length / 2 : Nat) : Int) := by
      rw [hlen2, length_bytesToSamples]
      omega
    rw [hcast]
    rw [Int.fdiv_eq_ediv _ (le_of_lt hn0), Int.fdiv_eq_ediv _ (le_of_lt hn0)]
    have hmod : (bytesToSamples pcm).sum
          - ((pcm.length / 2 : Nat) : Int)
            * ((bytesToSamples pcm).sum / ((pcm.length / 2 : Nat) : Int))
        = (bytesToSamples pcm).sum % ((pcm.length / 2 : Nat) : Int) :=
      (Int.emod_def _ _).symm
    rw [hmod]
    exact Int.ediv_eq_zero_of_lt (Int.emod_nonneg _ (ne_of_gt hn0))
      (Int.emod_lt_of_pos _ hn0)
  rw [hbias2]
  congr 1
  have hid : (((bytesToSamples pcm).map fun x =>
      x - (bytesToSamples pcm).sum.fdiv ((pcm.length / 2 : Nat) : Int)).map
        fun val => clip_int16 ((val - 0) * 1))
      = (((bytesToSamples pcm).map fun x =>
          x - (bytesToSamples pcm).sum.fdiv ((pcm.length / 2 : Nat) : Int)).map
            fun v => v) :=
    List.map_congr_left fun v hv => by
      rw [sub_zero, mul_one]
      exact clip_int16_eq_self v (hys v hv).1 (hys v hv).2
  rw [hid, List.map_id']

theorem pcm_adjust_idempotent_no_clip_witness :
    (([1, 0, 2, 0] : List Nat) ≠ []
      ∧ ([1, 0, 2, 0] : List Nat).length % 2 = 0
      ∧ (∀ x ∈ bytesToSamples [1, 0, 2, 0],
          -32768 ≤ x - (bytesToSamples [1, 0, 2, 0]).sum.fdiv
              ((([1, 0, 2, 0] : List Nat).length / 2 : Nat) : Int)
          ∧ x - (bytesToSamples [1, 0, 2, 0]).sum.fdiv
              ((([1, 0, 2, 0] : List Nat).length / 2 : Nat) : Int) ≤ 32767))
    ∧ pcm_adjust (pcm_adjust [1, 0, 2, 0] 1 true) 1 true = pcm_adjust [1, 0, 2, 0] 1 true :=
  ⟨⟨by decide, by decide, by decide⟩,
   pcm_adjust_idempotent_no_clip [1, 0, 2, 0] (by decide) (by decide) (by decide)⟩

/-! ### C5: the 96-slot offset-table parser -/

/-- **C5 counterexample**: the claim quantifies over every input buffer,
but on any buffer shorter than the 768-byte offset table the Python parser
raises IndexError inside `get_uint32` instead of producing a 96-entry
result list; on the empty buffer the embedding therefore yields `none`. -/
theorem pdx_short_buffer_fails : PDX_init [] = none := by decide

/-- **C5 (amended)**: for every input buffer of at least 768 bytes (so the
fixed 96-slot table of big-endian (offset, length) pairs at stride 8 is
readable), the parser produces exactly 96 entries in slot order; slot `i`
is decoded with the OKI codec iff `length > 1` and
`offset + length ≤ buffer length` (in particular a slot of length exactly 1
is marked absent), and every other slot remains a positional `none`
placeholder. -/
theorem pdx_table_semantics (data : List Nat) (h : 768 ≤ data.length) :
    ∃ l, PDX_init data = some l ∧ l.length = 96 ∧
      ∀ i : Fin 96,
        l.getD i.val none
          = if 1 < (PDX_pcm_offset data i.val).2
                ∧ (PDX_pcm_offset data i.val).1 + (PDX_pcm_offset data i.val).2 ≤ data.length
            then some (OKI_ADPCM.decode
                ((data.drop (PDX_pcm_offset data i.val).1).take (PDX_pcm_offset data i.val).2),
                i.val)
            else none := by
  refine ⟨(List.range 96).map fun i =>
      let po := PDX_pcm_offset data i
      if 1 < po.2 ∧ po.1 + po.2 ≤ data.length then
        some (OKI_ADPCM.decode ((data.drop po.1).take po.2), i)
      else none, ?_, ?_, ?_⟩
  · unfold PDX_init
    rw [if_pos h]
  · simp
  · intro i
    rw [List.getD_eq_getElem _ _ (by simp [i.isLt])]
    simp

/-- A concrete 768-byte PDX archive: slot 0 has (offset = 8, length = 4)
and the referenced bytes begin 0x12, 0x34; all other table entries are 0. -/
def goldenPDXBuf : List Nat :=
  [0x00, 0x00, 0x00, 0x08, 0x00, 0x00, 0x00, 0x04, 0x12, 0x34, 0x00, 0x00] ++
    List.replicate 756 0

set_option maxRecDepth 40000 in
theorem pdx_table_semantics_witness :
    768 ≤ goldenPDXBuf.length
    ∧ ∃ l, PDX_init goldenPDXBuf = some l ∧ l.length = 96 ∧
        ∀ i : Fin 96,
          l.getD i.val none
            = if 1 < (PDX_pcm_offset goldenPDXBuf i.val).2
                  ∧ (PDX_pcm_offset goldenPDXBuf i.val).1 + (PDX_pcm_offset goldenPDXBuf i.val).2
                      ≤ goldenPDXBuf.length
              then some (OKI_ADPCM.decode
                  ((goldenPDXBuf.drop (PDX_pcm_offset goldenPDXBuf i.val).1).take
                    (PDX_pcm_offset goldenPDXBuf i.val).2),
                  i.val)
              else none :=
  ⟨by decide, pdx_table_semantics goldenPDXBuf (by decide)⟩

/-! ### C6: the linear range remap -/

theorem pyround_intCast (z : Int) : pyround ((z : Int) : ℚ) = z := by
  unfold pyround
  rw [Int.floor_intCast]
  norm_num

/-- Embedding-level lemma: for a non-degenerate source range the rational
carried by `remap` is the linear map sending `a ↦ c` and `b ↦ d`,
whichever way either range is written — the source's four orientation
branches all collapse to this closed form.  The program-observable
statement (about the rounded integer, under the bounds that make the
embedding exact) is `remap_closed_form` below. -/
theorem remap_some_linear (n a b c d : Int) (h : a ≠ b) :
    remap n (a, b) (c, d)
      = some ((c : ℚ) + (((n : ℚ) - (a : ℚ)) * ((d : ℚ) - (c : ℚ))) / ((b : ℚ) - (a : ℚ))) := by
  have hba : ((b : ℚ) - (a : ℚ)) ≠ 0 := by
    rw [sub_ne_zero]
    exact_mod_cast Ne.symm h
  have hab : ((a : ℚ) - (b : ℚ)) ≠ 0 := by
    rw [sub_ne_zero]
    exact_mod_cast h
  simp only [remap]
  rw [if_neg (by omega)]
  congr 1
  rcases lt_or_gt_of_ne h with hlt | hlt <;> rcases le_or_lt c d with hcd | hcd
  · rw [min_eq_left hlt.le, max_eq_right hlt.le, min_eq_left hcd, max_eq_right hcd]
    rw [if_neg (show ¬(c ≠ c) by simp), if_neg (show ¬(a ≠ a) by simp)]
    push_cast
    ring
  · rw [min_eq_left hlt.le, max_eq_right hlt.le, min_eq_right hcd.le, max_eq_left hcd.le]
    rw [if_pos (show d ≠ c from hcd.ne), if_neg (show ¬(a ≠ a) by simp)]
    push_cast
    field_simp
    ring
  · rw [min_eq_right hlt.le, max_eq_left hlt.le, min_eq_left hcd, max_eq_right hcd]
    rw [if_neg (show ¬(c ≠ c) by simp), if_pos (show b ≠ a from hlt.ne)]
    push_cast
    field_simp
    ring
  · rw [min_eq_right hlt.le, max_eq_left hlt.le, min_eq_right hcd.le, max_eq_left hcd.le]
    rw [if_pos (show d ≠ c from hcd.ne), if_pos (show b ≠ a from hlt.ne)]
    push_cast
    field_simp
    ring

/-- **C6 counterexample**: with a degenerate source range the Python remap
divides by `r1_max - r1_min = 0` and raises ZeroDivisionError (`none` in
the embedding) instead of returning the target's single value — even when
the target range is degenerate too. -/
theorem remap_degenerate_source_fails :
    int_remap 5 (3, 3) (7, 7) = none ∧ int_remap 5 (3, 3) (7, 7) ≠ some 7 := by
  decide

/-- **C6 (amended)**: for arguments of magnitude at most 32767 — the
domain on which the embedding provably rounds to the same integer as the
program's double arithmetic, and which covers every call site's 7-bit
inputs — a non-degenerate source range [a,b] maps n linearly onto [c,d]
(either range possibly reversed) rounded half-to-even, and a degenerate
target range yields the target's single value; a degenerate source range,
however, fails with a division-by-zero error rather than returning the
target's single value.  (At larger magnitudes the program's rounded double
quotient can differ from the exactly rounded linear map, so no stronger
statement is true of the code.) -/
theorem remap_closed_form (n a b c d : Int) (h : a ≠ b)
    (hn : n.natAbs ≤ 32767) (ha : a.natAbs ≤ 32767) (hb : b.natAbs ≤ 32767)
    (hc : c.natAbs ≤ 32767) (hd : d.natAbs ≤ 32767) :
    int_remap n (a, b) (c, d)
        = some (pyround ((c : ℚ) + (((n : ℚ) - (a : ℚ)) * ((d : ℚ) - (c : ℚ))) / ((b : ℚ) - (a : ℚ))))
    ∧ int_remap n (a, b) (c, c) = some c
    ∧ int_remap n (a, a) (c, d) = none := by
  refine ⟨?_, ?_, ?_⟩
  · rw [int_remap, remap_some_linear n a b c d h]
    rfl
  · rw [int_remap, remap_some_linear n a b c c h]
    simp [pyround_intCast]
  · simp [int_remap, remap]

theorem remap_closed_form_witness :
    ((0 : Int) ≠ 127
      ∧ (64 : Int).natAbs ≤ 32767 ∧ (0 : Int).natAbs ≤ 32767 ∧ (127 : Int).natAbs ≤ 32767
      ∧ (0 : Int).natAbs ≤ 32767 ∧ (99 : Int).natAbs ≤ 32767)
    ∧ (int_remap 64 (0, 127) (0, 99)
          = some (pyround (((0 : Int) : ℚ)
              + ((((64 : Int) : ℚ) - ((0 : Int) : ℚ)) * (((99 : Int) : ℚ) - ((0 : Int) : ℚ)))
                / (((127 : Int) : ℚ) - ((0 : Int) : ℚ))))
      ∧ int_remap 64 (0, 127) (0, 0) = some 0
      ∧ int_remap 64 (0, 0) (0, 99) = none) :=
  ⟨⟨by decide, by decide, by decide, by decide, by decide, by decide⟩,
   remap_closed_form 64 0 127 0 99 (by decide) (by decide) (by decide) (by decide)
     (by decide) (by decide)⟩

/-! ### C7: the golden regression vector uses codec B, not codec A -/

set_option maxRecDepth 40000 in
/-- **C7 counterexample**: the generic-archive parser decodes slot 0 with
the OKI codec, so its output on the golden input is not the codec-A
(DELTA-T) decode of the slot's bytes, contrary to the claim. -/
theorem pdx_slot0_not_codecA :
    ((PDX_init goldenPDXBuf).getD []).getD 0 none
      ≠ some (YM_ADPCM.decode [0x12, 0x34, 0x00, 0x00], 0) := by
  decide

set_option maxRecDepth 40000 in
/-- **C7 (amended)**: on the golden archive input (slot 0 = (offset 8,
length 4) pointing at bytes 0x12, 0x34, 0x00, 0x00), the parser's decode of
slot 0 equals the output of codec B — the OKI decoder started from signal
-2, step 0 — namely the deterministic 8-sample sequence
8, 14, 32, 47, 49, 51, 53, 55 (little-endian 16-bit). -/
theorem pdx_slot0_golden :
    ((PDX_init goldenPDXBuf).getD []).getD 0 none
        = some (OKI_ADPCM.decode [0x12, 0x34, 0x00, 0x00], 0)
    ∧ OKI_ADPCM.decode [0x12, 0x34, 0x00, 0x00]
        = [8, 0, 14, 0, 32, 0, 47, 0, 49, 0, 51, 0, 53, 0, 55, 0] := by
  exact ⟨by decide, by decide⟩

end MDXtract
